import Mathlib

/-!
Verification development for the draw-generation and panel-data-management
subsystem of the biogeme `Database` class (`src/biogeme/database.py`).

The Python class is shallowly embedded: the pandas data frame becomes a
`Table` (column names plus rows of integers), the mutable object state
becomes an explicit `DBState` record, in-place aliasing between the working
frame and the saved full frame is tracked by a boolean flag, fallible
methods return `Except String`, and the random choices made by pandas
`sample` are abstracted by an explicit row-selection parameter.

The native draw generators delegate to the `biogeme.draws` module, which is
an external collaborator of this core; the calls made by
`_initNativeRandomNumberGenerators` (which function is invoked, with which
base / skip / symmetric / antithetic arguments) are embedded symbolically
as the inductive type `DrawExpr`.
-/

/-- Association-list lookup, mirroring Python `dict.get`: the value attached
to the first matching key, if any. -/
def lookupAssoc {κ α : Type} [BEq κ] (l : List (κ × α)) (k : κ) : Option α :=
  (l.find? (fun p => p.1 == k)).map (fun p => p.2)

/-- A pandas data frame, reduced to what the claims need: the list of column
names and the rows (each row a list of numeric values, aligned with the
column list). -/
structure Table where
  cols : List String
  rows : List (List Int)
deriving DecidableEq, Repr

/-- Symbolic embedding of the calls into the `biogeme.draws` module made by
`Database._initNativeRandomNumberGenerators`.  Each constructor records one
of the collaborator functions together with the arguments the source passes
to it; `concatNegate e` stands for generating `e` at half the requested
draw count and appending the pointwise negation along the draw axis
(`np.concatenate((localDraws, -localDraws), axis=1)`), `atHalfCount e`
stands for invoking `e` with `int(numberOfDraws / 2)` draws, and
`defaultUniforms` stands for the Python default `uniformNumbers=None` of
`getNormalWichuraDraws`. -/
inductive DrawExpr where
  | getUniform (symmetric : Bool)
  | getHaltonDraws (base : Nat) (skip : Nat) (symmetric : Bool)
  | getLatinHypercubeDraws (symmetric : Bool)
  | getAntithetic (inner : DrawExpr)
  | defaultUniforms
  | getNormalWichuraDraws (uniformNumbers : DrawExpr) (antithetic : Bool)
  | concatNegate (inner : DrawExpr)
  | atHalfCount (inner : DrawExpr)
deriving DecidableEq, Repr

open DrawExpr in
/-- The native generator dictionary built by
`Database._initNativeRandomNumberGenerators`: for every key, the symbolic
form of the generator function and the description string, in the order of
the Python dict literal. -/
def nativeRandomNumberGenerators : List (String × DrawExpr × String) :=
  [ ("UNIFORM", (getUniform false, "Uniform U[0, 1]")),
    ("UNIFORM_ANTI", (getAntithetic (getUniform false), "Antithetic uniform U[0, 1]")),
    ("UNIFORM_HALTON2",
      (getHaltonDraws 2 10 false, "Halton draws with base 2, skipping the first 10")),
    ("UNIFORM_HALTON3",
      (getHaltonDraws 3 10 false, "Halton draws with base 3, skipping the first 10")),
    ("UNIFORM_HALTON5",
      (getHaltonDraws 5 10 false, "Halton draws with base 5, skipping the first 10")),
    ("UNIFORM_MLHS",
      (getLatinHypercubeDraws false, "Modified Latin Hypercube Sampling on [0, 1]")),
    ("UNIFORM_MLHS_ANTI",
      (getAntithetic (getLatinHypercubeDraws false),
       "Antithetic Modified Latin Hypercube Sampling on [0, 1]")),
    ("UNIFORMSYM", (getUniform true, "Uniform U[-1, 1]")),
    ("UNIFORMSYM_ANTI",
      (concatNegate (getUniform true), "Antithetic uniform U[-1, 1]")),
    ("UNIFORMSYM_HALTON2",
      (getHaltonDraws 2 10 true, "Halton draws on [-1, 1] with base 2, skipping the first 10")),
    ("UNIFORMSYM_HALTON3",
      (getHaltonDraws 3 10 true, "Halton draws on [-1, 1] with base 3, skipping the first 10")),
    ("UNIFORMSYM_HALTON5",
      (getHaltonDraws 5 10 true, "Halton draws on [-1, 1] with base 5, skipping the first 10")),
    ("UNIFORMSYM_MLHS",
      (getLatinHypercubeDraws true, "Modified Latin Hypercube Sampling on [-1, 1]")),
    ("UNIFORMSYM_MLHS_ANTI",
      (concatNegate (getLatinHypercubeDraws true),
       "Antithetic Modified Latin Hypercube Sampling on [-1, 1]")),
    ("NORMAL", (getNormalWichuraDraws defaultUniforms false, "Normal N(0, 1) draws")),
    ("NORMAL_ANTI", (getNormalWichuraDraws defaultUniforms true, "Antithetic normal draws")),
    ("NORMAL_HALTON2",
      (getNormalWichuraDraws (getHaltonDraws 2 10 false) false,
       "Normal draws from Halton base 2 sequence")),
    ("NORMAL_HALTON3",
      (getNormalWichuraDraws (getHaltonDraws 2 10 false) false,
       "Normal draws from Halton base 3 sequence")),
    ("NORMAL_HALTON5",
      (getNormalWichuraDraws (getHaltonDraws 2 10 false) false,
       "Normal draws from Halton base 5 sequence")),
    ("NORMAL_MLHS",
      (getNormalWichuraDraws (getLatinHypercubeDraws false) false,
       "Normal draws from Modified Latin Hypercube Sampling")),
    ("NORMAL_MLHS_ANTI",
      (getNormalWichuraDraws (atHalfCount (getLatinHypercubeDraws false)) true,
       "Antithetic normal draws from Modified Latin Hypercube Sampling")) ]

/-- A draw-generator function: given the sample size and the number of
draws, it produces a two-dimensional numeric array, embedded as a list of
rows.  (Per the spec, §6, only the shape contract of the collaborator
generators matters to this core.) -/
def GenFun : Type := Nat → Nat → List (List Int)

/-- The mutable state of a `Database` object, restricted to the fields the
claims are about.  Python aliasing between the working frame and the saved
full frame (`self.data` / `self.fullData`, and `self.individualMap` /
`self.fullIndividualMap`) is modelled by the flags `dataAliased` /
`mapAliased`: when the flag is set, the working object *is* the saved full
object, so in-place mutations of the working frame are visible through the
full one. -/
structure DBState where
  fullData : Option Table
  dataOwn : Table
  dataAliased : Bool
  panelColumn : Option String
  fullIndividualMap : Option Table
  mapOwn : Option Table
  mapAliased : Bool
  nativeRNG : List (String × GenFun × String)
  userRNG : List (String × GenFun × String)

/-- The current working data frame `self.data`: the full frame when the two
are aliased, the separately owned frame otherwise. -/
def DBState.data (s : DBState) : Table :=
  if s.dataAliased then s.fullData.getD ⟨[], []⟩ else s.dataOwn

/-- The current working individual map `self.individualMap`. -/
def DBState.individualMap (s : DBState) : Option Table :=
  if s.mapAliased then s.fullIndividualMap else s.mapOwn

/-- `Database.isPanel`: the data is panel when a panel column is set. -/
def DBState.isPanel (s : DBState) : Bool :=
  s.panelColumn.isSome

/-- `Database.__init__`: both `self.data` and `self.fullData` are assigned
the same frame object, so they start out aliased; the panel fields start
out `None`, the user generator dictionary empty.  The native generator
dictionary is built from the `biogeme.draws` collaborator, so its concrete
functions are a parameter here. -/
def mkDatabase (native : List (String × GenFun × String)) (t : Table) : DBState :=
  { fullData := some t
    dataOwn := t
    dataAliased := true
    panelColumn := none
    fullIndividualMap := none
    mapOwn := none
    mapAliased := false
    nativeRNG := native
    userRNG := [] }

/-- In-place mutation of the working frame object (`self.data[...] = ...`,
`self.data.drop(..., inplace=True)`): when working and full frame are
aliased the saved full frame changes too. -/
def DBState.setDataInPlace (s : DBState) (t : Table) : DBState :=
  if s.dataAliased then { s with fullData := some t } else { s with dataOwn := t }

/-- `Database.addColumn` at the level of a single frame: fails when the
column name already exists, otherwise appends the column name and extends
every row with the value of the expression on that row. -/
def addColumnTable (expression : List Int → Int) (column : String) (t : Table) :
    Except String Table :=
  if column ∈ t.cols then
    .error ("Column " ++ column ++ " already exists in the database")
  else
    .ok { cols := t.cols ++ [column], rows := t.rows.map (fun r => r ++ [expression r]) }

/-- `Database.addColumn`: evaluates the expression on every row of the
current working frame and appends the result as a new column, in place. -/
def DBState.addColumn (s : DBState) (expression : List Int → Int) (column : String) :
    Except String DBState :=
  (addColumnTable expression column s.data).map s.setDataInPlace

/-- `Database.remove` at the level of a single frame: append the helper
column `__bioRemove__` holding the value of the expression per row, drop
the rows where it is not 0, then drop the helper column. -/
def removeTable (expression : List Int → Int) (t : Table) : Except String Table :=
  (addColumnTable expression "__bioRemove__" t).map (fun t1 =>
    { cols := t1.cols.dropLast
      rows := (t1.rows.filter (fun r => r.getLastD 0 == 0)).map List.dropLast })

/-- `Database.remove`: removes, in place, every row of the working frame on
which the expression is not 0. -/
def DBState.remove (s : DBState) (expression : List Int → Int) : Except String DBState :=
  (removeTable expression s.data).map s.setDataInPlace

/-- `pandas.sample(frac=..., weights=...)` on a frame: the random subset of
rows actually drawn is abstracted as the explicit row selection `choice`;
the column set is untouched. -/
def sampleTable (choice : List (List Int) → List (List Int)) (t : Table) : Table :=
  { cols := t.cols, rows := choice t.rows }

/-- Python `set(a.columns) == set(b.columns)`. -/
def colNamesEq (a b : Table) : Bool :=
  a.cols.all (fun c => b.cols.contains c) && b.cols.all (fun c => a.cols.contains c)

/-- The column names present in `a` but missing from `b` (one side of the
set differences reported by the structure-drift error message). -/
def colsOnlyIn (a b : Table) : List String :=
  a.cols.filter (fun c => !(b.cols.contains c))

/-- The structure-drift error message of `Database.sampleWithoutReplacement`:
the fixed prefix, then the columns that disappeared (present only in the
full copy) and the columns that were added (present only in the working
copy), each part emitted only when its set is non-empty. -/
def structureDriftMessage (full cur : Table) : String :=
  "The structure of the database has been modified since last sample. " ++
  (if colsOnlyIn full cur ≠ [] then
    " Columns that disappeared: " ++ toString (colsOnlyIn full cur) else "") ++
  (if colsOnlyIn cur full ≠ [] then
    " Columns that were added: " ++ toString (colsOnlyIn cur full) else "")

/-- `Database.sampleWithoutReplacement`: on panel data, saves the working
individual map as the full map when no full map exists yet, otherwise
checks the column-name sets of full and working map for structural drift;
then replaces the working map by a sample of the full map.  On
cross-sectional data, the same protocol applies to `self.data` /
`self.fullData`.  The newly assigned working copy is a fresh object, so it
is no longer aliased with the full copy.  The sampling rate and weight
column only parameterize the random row selection, abstracted as `choice`. -/
def sampleWithoutReplacement (choice : List (List Int) → List (List Int)) (s : DBState) :
    Except String DBState :=
  if s.isPanel then
    match s.fullIndividualMap with
    | none =>
      match s.individualMap with
      | none => .error "no individual map"
      | some m =>
        .ok { s with fullIndividualMap := some m
                     mapOwn := some (sampleTable choice m)
                     mapAliased := false }
    | some fm =>
      match s.individualMap with
      | none => .error "no individual map"
      | some cur =>
        if colNamesEq fm cur then
          .ok { s with mapOwn := some (sampleTable choice fm), mapAliased := false }
        else
          .error (structureDriftMessage fm cur)
  else
    match s.fullData with
    | none =>
      .ok { s with fullData := some s.data
                   dataOwn := sampleTable choice s.data
                   dataAliased := false }
    | some fd =>
      if colNamesEq fd s.data then
        .ok { s with dataOwn := sampleTable choice fd, dataAliased := false }
      else
        .error (structureDriftMessage fd s.data)

/-- A sequence of `sampleWithoutReplacement` calls, each with its own
abstract row selection, stopping at the first failure. -/
def sampleSeq : List (List (List Int) → List (List Int)) → DBState → Except String DBState
  | [], s => .ok s
  | choice :: rest, s => (sampleWithoutReplacement choice s).bind (sampleSeq rest)

/-- `Database.useFullSample`: re-establish the saved full copy as the
working copy (the individual map on panel data, the data frame otherwise);
fails when no full copy was ever saved. -/
def useFullSample (s : DBState) : Except String DBState :=
  if s.isPanel then
    match s.fullIndividualMap with
    | none => .error "Full panel data set has not been saved."
    | some _ => .ok { s with mapAliased := true }
  else
    match s.fullData with
    | none => .error "Full data set has not been saved."
    | some _ => .ok { s with dataAliased := true }

/-- The reserved-keyword error message of `Database.setRandomNumberGenerators`. -/
def reservedKeywordMessage (k : String) : String :=
  k ++ " is a reserved keyword for draws and cannot be used for user-defined generators"

/-- `Database.setRandomNumberGenerators`: iterates over the native
generator names and fails on the first one that is also a key of the
supplied dictionary; otherwise the user dictionary is *assigned* (replaced
wholesale by) the supplied one. -/
def setRandomNumberGenerators (rng : List (String × GenFun × String)) (s : DBState) :
    Except String DBState :=
  match (s.nativeRNG.map Prod.fst).find? (fun k => (rng.map Prod.fst).contains k) with
  | some k => .error (reservedKeywordMessage k)
  | none => .ok { s with userRNG := rng }

/-- Generator resolution in `Database.generateDraws`: the native dictionary
is consulted first, then the user dictionary. -/
def resolveGenerator (s : DBState) (drawType : String) : Option GenFun :=
  match lookupAssoc s.nativeRNG drawType with
  | some g => some g.1
  | none => (lookupAssoc s.userRNG drawType).map Prod.fst

/-- `Database.getSampleSize`: the number of individuals (rows of the
individual map) on panel data, the number of rows of the data frame
otherwise. -/
def getSampleSize (s : DBState) : Nat :=
  if s.isPanel then ((s.individualMap).getD ⟨[], []⟩).rows.length
  else s.data.rows.length

/-- Does `m` have the exact shape `(sampleSize, numberOfDraws)`? -/
def shapeOk (m : List (List Int)) (sampleSize numberOfDraws : Nat) : Bool :=
  m.length == sampleSize && m.all (fun r => r.length == numberOfDraws)

/-- One iteration of the `generateDraws` loop for a single variable name:
look up its draw type, resolve the generator (native first, then user),
invoke it with `(sampleSize, numberOfDraws)` and check the shape of the
result. -/
def generateOne (s : DBState) (types : List (String × String)) (numberOfDraws : Nat)
    (name : String) : Except String (List (List Int)) :=
  match lookupAssoc types name with
  | none => .error ("KeyError: " ++ name)
  | some drawType =>
    match resolveGenerator s drawType with
    | none =>
      .error ("Unknown type of draws for variable " ++ name ++ ": " ++ drawType ++
        ". Native types: " ++ toString (s.nativeRNG.map Prod.fst) ++
        ". User defined: " ++ toString (s.userRNG.map Prod.fst))
    | some g =>
      if shapeOk (g (getSampleSize s) numberOfDraws) (getSampleSize s) numberOfDraws then
        .ok (g (getSampleSize s) numberOfDraws)
      else
        .error ("The draw generator for " ++ name ++
          " must generate a numpy array of dimensions (" ++
          toString (getSampleSize s) ++ ", " ++ toString numberOfDraws ++ ")")

/-- The `generateDraws` loop: the per-variable two-dimensional draw arrays
collected in list order, stopping at the first failure. -/
def collectDraws (s : DBState) (types : List (String × String)) (numberOfDraws : Nat) :
    List String → Except String (List (List (List Int)))
  | [] => .ok []
  | name :: rest => do
    let m ← generateOne s types numberOfDraws name
    let ms ← collectDraws s types numberOfDraws rest
    pure (m :: ms)

/-- `np.moveaxis(theDraws, 0, -1)`: the internally generated
(variable, individual, draw) stack of arrays, re-indexed so that entry
`[i][d][v]` of the result is entry `[i][d]` of the `v`-th input array. -/
def moveaxis (l : List (List (List Int))) (sampleSize numberOfDraws : Nat) :
    List (List (List Int)) :=
  (List.range sampleSize).map (fun i =>
    (List.range numberOfDraws).map (fun d =>
      l.map (fun m => (m.getD i []).getD d 0)))

/-- `Database.generateDraws`: generate the per-variable arrays in the order
of the supplied name list, then permute the axes from
(variable, individual, draw) to (individual, draw, variable). -/
def generateDraws (s : DBState) (types : List (String × String)) (names : List String)
    (numberOfDraws : Nat) : Except String (List (List (List Int))) :=
  (collectDraws s types numberOfDraws names).map (fun l =>
    moveaxis l (getSampleSize s) numberOfDraws)

/-- The shape-checked array produced for one variable name, when its
`generateOne` call succeeds (`[]` otherwise). -/
def generatedMatrix (s : DBState) (types : List (String × String)) (numberOfDraws : Nat)
    (name : String) : List (List Int) :=
  ((generateOne s types numberOfDraws name).toOption).getD []

/-- `self.data.sort_values(by=self.panelColumn)` at the level of the
grouping column: the column values in sorted order.  (The individual map
only depends on the multiset of grouping values, so the tie-breaking of the
sorting algorithm is irrelevant here.) -/
def sortedCol (col : List Int) : List Int :=
  List.insertionSort (· ≤ ·) col

/-- `pandas.unique` on a column: the distinct values in order of first
appearance (later duplicates dropped). -/
def uniqueInOrder : List Int → List Int
  | [] => []
  | a :: t => a :: (uniqueInOrder t).filter (fun x => x != a)

/-- `self.data.loc[self.data[col] == i].index`: the row indices of the
(renumbered) frame whose grouping value equals `v`. -/
def indicesOf (l : List Int) (v : Int) : List Nat :=
  (List.range l.length).filter (fun j => l.getD j 0 == v)

/-- Python `min` of a (nonempty) list of indices. -/
def listMin : List Nat → Nat
  | [] => 0
  | a :: t => t.foldl Nat.min a

/-- Python `max` of a (nonempty) list of indices. -/
def listMax : List Nat → Nat
  | [] => 0
  | a :: t => t.foldl Nat.max a

/-- `Database.buildPanelMap`, at the level of the grouping column: sort the
data by the grouping column, renumber the rows densely from 0, and for each
distinct identifier (in first-appearance order of the sorted data) record
the minimum and maximum row index of its observations. -/
def buildPanelMap (col : List Int) : List (Int × Nat × Nat) :=
  (uniqueInOrder (sortedCol col)).map (fun v =>
    (v, listMin (indicesOf (sortedCol col) v), listMax (indicesOf (sortedCol col) v)))

/-- Modelled from the spec: `biogeme.tools.countNumberOfGroups` is not part
of the reviewed sources; per the spec it counts the contiguous runs of
equal grouping-column values ("the number of contiguous runs of equal
grouping-column value"). -/
def countNumberOfGroups : List Int → Nat
  | [] => 0
  | [_] => 1
  | a :: b :: t => (if a = b then 0 else 1) + countNumberOfGroups (b :: t)

/-- The number of distinct values of a column. -/
def numDistinct (col : List Int) : Nat :=
  col.toFinset.card

/-- The contiguity error message of `Database.panel`, reporting the number
of individuals, the number of groups, and the column name. -/
def panelErrorMessage (columnName : String) (nIndividuals nGroups : Nat) : String :=
  "The data must be sorted so that the data for the same individual are consecutive." ++
  " There are " ++ toString nIndividuals ++ " individuals in the sample, and " ++
  toString nGroups ++ " groups of data for column " ++ columnName ++ "."

/-- `Database.panel`, at the level of the grouping column: fail when the
number of contiguous groups of the column differs from the number of
contiguous groups after sorting (the number of individuals); otherwise
build the panel map. -/
def panel (columnName : String) (col : List Int) : Except String (List (Int × Nat × Nat)) :=
  let nGroups := countNumberOfGroups col
  let nIndividuals := countNumberOfGroups (sortedCol col)
  if nGroups ≠ nIndividuals then
    .error (panelErrorMessage columnName nIndividuals nGroups)
  else
    .ok (buildPanelMap col)

/-- The part sizes of `np.array_split(l, k)`: the first `l.length % k`
parts get `l.length / k + 1` elements, the remaining ones `l.length / k`. -/
def splitSizes (n k : Nat) : List Nat :=
  (List.range k).map (fun i => n / k + if i < n % k then 1 else 0)

/-- Cut a list into consecutive parts of the given sizes. -/
def takeParts {α : Type} : List Nat → List α → List (List α)
  | [], _ => []
  | sz :: rest, l => l.take sz :: takeParts rest (l.drop sz)

/-- `np.array_split(l, k)`: `k` consecutive, nearly equal parts. -/
def array_split {α : Type} (l : List α) (k : Nat) : List (List α) :=
  takeParts (splitSizes l.length k) l

/-- `Database.split`: shuffle the rows (the random permutation actually
drawn is the explicit argument `shuffled`), cut them into `slices` nearly
equal blocks, and return for each block the pair (estimation set =
concatenation of all other blocks in original block order, validation set =
the block itself). -/
def split {α : Type} (shuffled : List α) (slices : Nat) : List (List α × List α) :=
  let theSlices := array_split shuffled slices
  (List.range slices).map (fun i =>
    ((theSlices.take i ++ theSlices.drop (i + 1)).flatten, theSlices.getD i []))

/-- The per-row body of `Database.checkAvailabilityOfChosenAlt`: evaluate
the chosen alternative, look its value up in the availability mapping
(`KeyError` / `IndexError` are caught and yield `False`), and otherwise
report whether the availability expression evaluates to non-zero. -/
def checkAvailRow (avail : List (Int × (List Int → Int))) (choice : List Int → Int)
    (row : List Int) : Bool :=
  match lookupAssoc avail (choice row) with
  | none => false
  | some availExpression => availExpression row != 0

/-- `Database.checkAvailabilityOfChosenAlt`: apply the per-row check to
every row of the database, in row order. -/
def checkAvailabilityOfChosenAlt (avail : List (Int × (List Int → Int)))
    (choice : List Int → Int) (rows : List (List Int)) : List Bool :=
  rows.map (checkAvailRow avail choice)

/-- A native-registry fixture: the real native generator names (and
descriptions) with trivial generator functions, usable where only the
dictionary structure matters (the concrete sequence algorithms live in the
external `biogeme.draws` collaborator). -/
def fixtureNativeRNG : List (String × GenFun × String) :=
  nativeRandomNumberGenerators.map (fun p => (p.1, fun _ _ => [], p.2.2))

/-- A generator fixture producing a constant array of exact shape
`(sampleSize, numberOfDraws)`. -/
def constGen : GenFun :=
  fun sampleSize numberOfDraws => List.replicate sampleSize (List.replicate numberOfDraws 7)

/-- A two-row, one-column table fixture. -/
def tableA : Table :=
  ⟨["a"], [[0], [1]]⟩

/-- Claim C1: the native generators NORMAL_HALTON3 and NORMAL_HALTON5 are
claimed to apply the Wichura transform to the Halton sequence of base 3
(resp. base 5) skipping the first 10 points.  In the source, both
`normal_halton3` and `normal_halton5` build their uniforms with
`draws.getHaltonDraws(sampleSize, numberOfDraws, base=2, skip=10)` — base 2
in both cases — contradicting their own registry descriptions ("Normal
draws from Halton base 3 sequence", "Normal draws from Halton base 5
sequence").  This theorem evaluates the registry at the two offending keys
and records that the stored programs use base 2, not base 3 or 5. -/
theorem normal_halton3_and_5_use_base2 :
    lookupAssoc nativeRandomNumberGenerators "NORMAL_HALTON3" =
      some (DrawExpr.getNormalWichuraDraws (DrawExpr.getHaltonDraws 2 10 false) false,
            "Normal draws from Halton base 3 sequence") ∧
    lookupAssoc nativeRandomNumberGenerators "NORMAL_HALTON5" =
      some (DrawExpr.getNormalWichuraDraws (DrawExpr.getHaltonDraws 2 10 false) false,
            "Normal draws from Halton base 5 sequence") ∧
    lookupAssoc nativeRandomNumberGenerators "NORMAL_HALTON3" ≠
      some (DrawExpr.getNormalWichuraDraws (DrawExpr.getHaltonDraws 3 10 false) false,
            "Normal draws from Halton base 3 sequence") ∧
    lookupAssoc nativeRandomNumberGenerators "NORMAL_HALTON5" ≠
      some (DrawExpr.getNormalWichuraDraws (DrawExpr.getHaltonDraws 5 10 false) false,
            "Normal draws from Halton base 5 sequence") := by
  refine ⟨by decide, by decide, by decide, by decide⟩

/-- An `Except` value with `isOk = true` is `.ok` of its unwrapped value. -/
theorem Except_eq_ok_of_isOk {α : Type} (e : Except String α) (d : α) (h : e.isOk = true) :
    e = .ok ((e.toOption).getD d) := by
  cases e with
  | error err => simp [Except.isOk, Except.toBool] at h
  | ok a => simp [Except.toOption]

/-- Claim C9: for every row of the database, if the chosen-alternative
value computed by `checkAvailabilityOfChosenAlt` does not correspond to any
key of the availability mapping, the result for that row is `false`
(treated as unavailable), and no error is raised for that row (the per-row
computation is total into `Bool`, and the overall result has one entry per
row). -/
theorem checkAvailability_unknown_chosen_false
    (avail : List (Int × (List Int → Int))) (choice : List Int → Int)
    (rows : List (List Int)) (i : Nat)
    (h : (lookupAssoc avail (choice (rows.getD i []))).isNone = true) :
    (checkAvailabilityOfChosenAlt avail choice rows).length = rows.length ∧
    (checkAvailabilityOfChosenAlt avail choice rows).getD i false = false := by
  constructor
  · simp [checkAvailabilityOfChosenAlt]
  · rw [Option.isNone_iff_eq_none] at h
    unfold checkAvailabilityOfChosenAlt
    rcases Nat.lt_or_ge i rows.length with hi | hi
    · rw [List.getD_eq_getElem?_getD, List.getElem?_map, List.getElem?_eq_getElem hi]
      have hrow : rows[i] = rows.getD i [] := by
        rw [List.getD_eq_getElem?_getD, List.getElem?_eq_getElem hi]
        rfl
      simp only [Option.map_some', Option.getD_some]
      unfold checkAvailRow
      rw [hrow, h]
    · rw [List.getD_eq_getElem?_getD, List.getElem?_eq_none (by simpa using hi)]
      rfl

/-- Witness for C9: a concrete single-row database whose chosen value 5 is
not a key of the availability mapping; the result row is `false`. -/
theorem checkAvailability_unknown_chosen_false_witness :
    (lookupAssoc [((1 : Int), (fun (_ : List Int) => (1 : Int)))]
        ((fun (r : List Int) => r.getD 0 0) (([[(5 : Int)]] : List (List Int)).getD 0 []))).isNone
      = true ∧
    ((checkAvailabilityOfChosenAlt [((1 : Int), (fun (_ : List Int) => (1 : Int)))]
        (fun (r : List Int) => r.getD 0 0) [[(5 : Int)]]).length
        = ([[(5 : Int)]] : List (List Int)).length ∧
     (checkAvailabilityOfChosenAlt [((1 : Int), (fun (_ : List Int) => (1 : Int)))]
        (fun (r : List Int) => r.getD 0 0) [[(5 : Int)]]).getD 0 false = false) :=
  ⟨by decide, checkAvailability_unknown_chosen_false _ _ _ 0 (by decide)⟩

/-- Counterexample for claim C2: `setRandomNumberGenerators` *replaces* the
user dictionary wholesale (`self.userRandomNumberGenerators = rng`), so
after two successive successful registrations under the distinct
non-native names MYGEN_A and MYGEN_B, the first name no longer resolves
while the second one does — contradicting the claim that both names remain
resolvable. -/
theorem setRandomNumberGenerators_drops_previous :
    ((setRandomNumberGenerators [("MYGEN_A", fun _ _ => [], "user A")]
        (mkDatabase fixtureNativeRNG tableA)).bind
      (fun s1 => setRandomNumberGenerators [("MYGEN_B", fun _ _ => [], "user B")] s1)).map
      (fun s2 => ((resolveGenerator s2 "MYGEN_A").isNone, (resolveGenerator s2 "MYGEN_B").isSome))
      = .ok (true, true) := by
  rfl

/-- Claim C2 (amended): registering user draw generators fails with the
reserved-keyword (name-collision) error whenever any supplied name exactly
matches a native generator name (case-sensitive); otherwise the supplied
dictionary is assigned as the *whole* user dictionary, so afterwards
exactly the native names and the names of this last registration resolve
(native entries searched first). -/
theorem setRandomNumberGenerators_contract (s : DBState)
    (rng : List (String × GenFun × String)) :
    ((∃ k, k ∈ s.nativeRNG.map Prod.fst ∧ k ∈ rng.map Prod.fst) →
       ∃ k, k ∈ s.nativeRNG.map Prod.fst ∧ k ∈ rng.map Prod.fst ∧
         setRandomNumberGenerators rng s = .error (reservedKeywordMessage k)) ∧
    ((¬ ∃ k, k ∈ s.nativeRNG.map Prod.fst ∧ k ∈ rng.map Prod.fst) →
       setRandomNumberGenerators rng s = .ok { s with userRNG := rng }) ∧
    (∀ s', setRandomNumberGenerators rng s = .ok s' →
       s'.userRNG = rng ∧ s'.nativeRNG = s.nativeRNG ∧
       ∀ name, resolveGenerator s' name =
         match lookupAssoc s.nativeRNG name with
         | some g => some g.1
         | none => (lookupAssoc rng name).map Prod.fst) := by
  have hunfold : setRandomNumberGenerators rng s =
      (match (s.nativeRNG.map Prod.fst).find? (fun k => (rng.map Prod.fst).contains k) with
       | some k => .error (reservedKeywordMessage k)
       | none => .ok { s with userRNG := rng }) := rfl
  cases hfind : (s.nativeRNG.map Prod.fst).find? (fun k => (rng.map Prod.fst).contains k) with
  | some k =>
    have heq : setRandomNumberGenerators rng s = .error (reservedKeywordMessage k) := by
      rw [hunfold, hfind]
    have hpred := List.find?_some hfind
    have hmem := List.mem_of_find?_eq_some hfind
    have hmemrng : k ∈ rng.map Prod.fst := by
      simpa using hpred
    refine ⟨fun _ => ⟨k, hmem, hmemrng, heq⟩,
      fun hn => absurd ⟨k, hmem, hmemrng⟩ hn, ?_⟩
    intro s' hs'
    rw [heq] at hs'
    exact absurd hs' (by simp)
  | none =>
    have heq : setRandomNumberGenerators rng s = .ok { s with userRNG := rng } := by
      rw [hunfold, hfind]
    have hno : ∀ k ∈ s.nativeRNG.map Prod.fst, ¬ k ∈ rng.map Prod.fst := by
      intro k hk hkr
      have h1 := List.find?_eq_none.mp hfind k hk
      exact h1 (by simpa using hkr)
    refine ⟨fun hex => ?_, fun _ => heq, ?_⟩
    · obtain ⟨k, hk1, hk2⟩ := hex
      exact absurd hk2 (hno k hk1)
    · intro s' hs'
      rw [heq] at hs'
      obtain rfl := (Except.ok.inj hs').symm
      exact ⟨rfl, rfl, fun name => rfl⟩

/-- Claim C10: before the first `sampleWithoutReplacement` on a non-panel
database, the working table and the saved full copy are the same object:
`remove` and `addColumn` applied at that point mutate the saved full copy
as well, so a subsequent `useFullSample` yields the mutated table; on the
concrete fixture the mutated table (row removed, column added) differs
from the table held at construction. -/
theorem remove_addColumn_mutate_full_copy :
    (∀ (native : List (String × GenFun × String)) (t : Table)
       (f g : List Int → Int) (name : String) (s₁ s₂ : DBState),
       (mkDatabase native t).remove f = .ok s₁ →
       s₁.addColumn g name = .ok s₂ →
       s₂.fullData = some s₂.data ∧
       (removeTable f t).bind (addColumnTable g name) = .ok s₂.data ∧
       ∃ s₃, useFullSample s₂ = .ok s₃ ∧ s₃.data = s₂.data) ∧
    ((removeTable (fun r => r.getD 0 0) tableA).bind
       (addColumnTable (fun _ => 7) "b")) = .ok ⟨["a", "b"], [[0, 7]]⟩ ∧
    (⟨["a", "b"], [[0, 7]]⟩ : Table) ≠ tableA := by
  refine ⟨?_, by rfl, by decide⟩
  intro native t f g name s₁ s₂ h₁ h₂
  cases hr : removeTable f t with
  | error e =>
    rw [DBState.remove, show (mkDatabase native t).data = t from rfl, hr] at h₁
    exact absurd h₁ (by simp [Except.map])
  | ok t₁ =>
    rw [DBState.remove, show (mkDatabase native t).data = t from rfl, hr] at h₁
    simp only [Except.map, Except.ok.injEq] at h₁
    subst h₁
    cases ha : addColumnTable g name ((mkDatabase native t).setDataInPlace t₁).data with
    | error e =>
      rw [DBState.addColumn, ha] at h₂
      exact absurd h₂ (by simp [Except.map])
    | ok t₂ =>
      rw [DBState.addColumn, ha] at h₂
      simp only [Except.map, Except.ok.injEq] at h₂
      subst h₂
      have hst : ((mkDatabase native t).setDataInPlace t₁).data = t₁ := by
        simp [mkDatabase, DBState.setDataInPlace, DBState.data]
      rw [hst] at ha
      have hs₂data :
          (((mkDatabase native t).setDataInPlace t₁).setDataInPlace t₂).data = t₂ := by
        simp [mkDatabase, DBState.setDataInPlace, DBState.data]
      refine ⟨?_, ?_, ?_⟩
      · rw [hs₂data]
        simp [mkDatabase, DBState.setDataInPlace]
      · rw [hs₂data]
        exact ha
      · refine ⟨((mkDatabase native t).setDataInPlace t₁).setDataInPlace t₂, ?_, rfl⟩
        simp [useFullSample, mkDatabase, DBState.setDataInPlace, DBState.isPanel]

/-- Witness for the amended C2 at the concrete registry fixture: the user
name NORMAL collides with a native name and registration fails with the
reserved-keyword error. -/
theorem setRandomNumberGenerators_contract_witness :
    (∃ k, k ∈ (mkDatabase fixtureNativeRNG tableA).nativeRNG.map Prod.fst ∧
       k ∈ ([("NORMAL", constGen, "clash")] : List (String × GenFun × String)).map Prod.fst) ∧
    (∃ k, k ∈ (mkDatabase fixtureNativeRNG tableA).nativeRNG.map Prod.fst ∧
       k ∈ ([("NORMAL", constGen, "clash")] : List (String × GenFun × String)).map Prod.fst ∧
       setRandomNumberGenerators [("NORMAL", constGen, "clash")]
         (mkDatabase fixtureNativeRNG tableA) = .error (reservedKeywordMessage k)) :=
  ⟨⟨"NORMAL", by decide, by decide⟩,
   (setRandomNumberGenerators_contract (mkDatabase fixtureNativeRNG tableA)
      [("NORMAL", constGen, "clash")]).1 ⟨"NORMAL", by decide, by decide⟩⟩

/-- Witness for C10 on the concrete fixture table: removing the second row
and adding column "b" mutates the saved full copy, and `useFullSample`
returns the mutated table. -/
theorem remove_addColumn_mutate_full_copy_witness :
    (mkDatabase [] tableA).remove (fun r => r.getD 0 0) =
      .ok { fullData := some ⟨["a"], [[0]]⟩, dataOwn := tableA, dataAliased := true
            panelColumn := none, fullIndividualMap := none, mapOwn := none
            mapAliased := false, nativeRNG := [], userRNG := [] } ∧
    DBState.addColumn
      { fullData := some ⟨["a"], [[0]]⟩, dataOwn := tableA, dataAliased := true
        panelColumn := none, fullIndividualMap := none, mapOwn := none
        mapAliased := false, nativeRNG := [], userRNG := [] } (fun _ => 7) "b" =
      .ok { fullData := some ⟨["a", "b"], [[0, 7]]⟩, dataOwn := tableA, dataAliased := true
            panelColumn := none, fullIndividualMap := none, mapOwn := none
            mapAliased := false, nativeRNG := [], userRNG := [] } ∧
    ({ fullData := some ⟨["a", "b"], [[0, 7]]⟩, dataOwn := tableA, dataAliased := true
       panelColumn := none, fullIndividualMap := none, mapOwn := none
       mapAliased := false, nativeRNG := [], userRNG := [] } : DBState).fullData =
      some ({ fullData := some ⟨["a", "b"], [[0, 7]]⟩, dataOwn := tableA, dataAliased := true
              panelColumn := none, fullIndividualMap := none, mapOwn := none
              mapAliased := false, nativeRNG := [], userRNG := [] } : DBState).data ∧
    (removeTable (fun r => r.getD 0 0) tableA).bind (addColumnTable (fun _ => 7) "b") =
      .ok ({ fullData := some ⟨["a", "b"], [[0, 7]]⟩, dataOwn := tableA, dataAliased := true
             panelColumn := none, fullIndividualMap := none, mapOwn := none
             mapAliased := false, nativeRNG := [], userRNG := [] } : DBState).data ∧
    (∃ s₃, useFullSample
        { fullData := some ⟨["a", "b"], [[0, 7]]⟩, dataOwn := tableA, dataAliased := true
          panelColumn := none, fullIndividualMap := none, mapOwn := none
          mapAliased := false, nativeRNG := [], userRNG := [] } = .ok s₃ ∧
       s₃.data = ({ fullData := some ⟨["a", "b"], [[0, 7]]⟩, dataOwn := tableA
                    dataAliased := true, panelColumn := none, fullIndividualMap := none
                    mapOwn := none, mapAliased := false, nativeRNG := []
                    userRNG := [] } : DBState).data) :=
  ⟨rfl, rfl, remove_addColumn_mutate_full_copy.1 [] tableA _ _ "b" _ _ rfl rfl⟩

/-- Tables with the same column list have equal column-name sets. -/
theorem colNamesEq_of_cols_eq {a b : Table} (h : a.cols = b.cols) : colNamesEq a b = true := by
  simp only [colNamesEq, h, Bool.and_eq_true, List.all_eq_true]
  exact ⟨fun c hc => by simpa using hc, fun c hc => by simpa using hc⟩

/-- Appending one fresh column name makes the column-name sets differ. -/
theorem colNamesEq_append_fresh {a b : Table} {name : String}
    (hb : b.cols = a.cols ++ [name]) (hn : name ∉ a.cols) : colNamesEq a b = false := by
  simp only [colNamesEq, hb, Bool.and_eq_false_iff]
  right
  simp only [List.all_append, Bool.and_eq_false_iff]
  right
  simpa using hn

/-- The columns of `a` are all present in `a` extended by one name. -/
theorem colsOnlyIn_sub_append {a b : Table} {name : String}
    (hb : b.cols = a.cols ++ [name]) : colsOnlyIn a b = [] := by
  simp only [colsOnlyIn, hb, List.filter_eq_nil_iff]
  intro c hc
  simp [List.mem_append.mpr (Or.inl hc)]

/-- Only the freshly appended column name is missing from the original. -/
theorem colsOnlyIn_append_fresh {a b : Table} {name : String}
    (hb : b.cols = a.cols ++ [name]) (hn : name ∉ a.cols) : colsOnlyIn b a = [name] := by
  simp only [colsOnlyIn, hb, List.filter_append]
  rw [List.filter_eq_nil_iff.mpr (fun c hc => by simp [hc]), List.nil_append]
  simp [hn]

/-- First non-panel `sampleWithoutReplacement` on an aliased state: the
working frame before the call becomes (or stays) the saved full frame, and
the new working frame is the sampled copy, no longer aliased. -/
theorem sample_first_nonpanel {choice : List (List Int) → List (List Int)} {s s₁ : DBState}
    (hp : s.panelColumn = none) (ha : s.dataAliased = true)
    (h : sampleWithoutReplacement choice s = .ok s₁) :
    s₁.panelColumn = none ∧ s₁.fullData = some s.data ∧ s₁.dataAliased = false ∧
    s₁.data = sampleTable choice s.data := by
  unfold sampleWithoutReplacement at h
  rw [show s.isPanel = false by simp [DBState.isPanel, hp]] at h
  simp only [Bool.false_eq_true, if_false] at h
  split at h
  next heq =>
    obtain rfl := (Except.ok.inj h).symm
    exact ⟨hp, rfl, rfl, rfl⟩
  next fd heq =>
    have hdata : s.data = fd := by simp [DBState.data, ha, heq]
    split at h
    next hcol =>
      obtain rfl := (Except.ok.inj h).symm
      refine ⟨hp, ?_, rfl, ?_⟩
      · rw [heq, hdata]
      · simp [DBState.data, ha, heq]
    next hcol => exact absurd h (by simp)

/-- First panel `sampleWithoutReplacement` on an aliased state: the full
individual map is preserved and must exist. -/
theorem sample_first_panel {choice : List (List Int) → List (List Int)} {s s₁ : DBState}
    {c : String} (hp : s.panelColumn = some c) (ha : s.mapAliased = true)
    (h : sampleWithoutReplacement choice s = .ok s₁) :
    s₁.panelColumn = some c ∧ s₁.fullIndividualMap = s.fullIndividualMap ∧
    s.fullIndividualMap.isSome = true := by
  unfold sampleWithoutReplacement at h
  rw [show s.isPanel = true by simp [DBState.isPanel, hp]] at h
  simp only [if_true] at h
  split at h
  next heq =>
    have hcur : s.individualMap = none := by simp [DBState.individualMap, ha, heq]
    split at h
    next heq2 => exact absurd h (by simp)
    next m heq2 => rw [hcur] at heq2; exact absurd heq2 (by simp)
  next fm heq =>
    have hcur : s.individualMap = some fm := by simp [DBState.individualMap, ha, heq]
    split at h
    next heq2 => rw [hcur] at heq2; exact absurd heq2 (by simp)
    next cur heq2 =>
      split at h
      next hcol =>
        obtain rfl := (Except.ok.inj h).symm
        exact ⟨hp, rfl, by rw [heq]; rfl⟩
      next hcol => exact absurd h (by simp)

/-- A successful run of `sampleSeq` on non-panel data preserves the panel
column and the saved full frame. -/
theorem sampleSeq_preserves_nonpanel :
    ∀ (choices : List (List (List Int) → List (List Int))) (s s' : DBState) (X : Table),
      s.panelColumn = none → s.fullData = some X →
      sampleSeq choices s = .ok s' →
      s'.panelColumn = none ∧ s'.fullData = some X := by
  intro choices
  induction choices with
  | nil =>
    intro s s' X hp hf h
    obtain rfl := (Except.ok.inj h).symm
    exact ⟨hp, hf⟩
  | cons choice rest ih =>
    intro s s' X hp hf h
    simp only [sampleSeq] at h
    cases hstep : sampleWithoutReplacement choice s with
    | error e => rw [hstep] at h; exact absurd h (by simp [Except.bind])
    | ok s₁ =>
      rw [hstep] at h
      have hs₁ : s₁.panelColumn = none ∧ s₁.fullData = some X := by
        unfold sampleWithoutReplacement at hstep
        rw [show s.isPanel = false by simp [DBState.isPanel, hp]] at hstep
        simp only [Bool.false_eq_true, if_false] at hstep
        split at hstep
        next heq => rw [hf] at heq; exact absurd heq (by simp)
        next fd heq =>
          split at hstep
          next hcol =>
            obtain rfl := (Except.ok.inj hstep).symm
            exact ⟨hp, hf⟩
          next hcol => exact absurd hstep (by simp)
      exact ih s₁ s' X hs₁.1 hs₁.2 h

/-- A successful run of `sampleSeq` on panel data preserves the panel
column and the saved full individual map. -/
theorem sampleSeq_preserves_panel :
    ∀ (choices : List (List (List Int) → List (List Int))) (s s' : DBState)
      (c : String) (X : Table),
      s.panelColumn = some c → s.fullIndividualMap = some X →
      sampleSeq choices s = .ok s' →
      s'.panelColumn = some c ∧ s'.fullIndividualMap = some X := by
  intro choices
  induction choices with
  | nil =>
    intro s s' c X hp hf h
    obtain rfl := (Except.ok.inj h).symm
    exact ⟨hp, hf⟩
  | cons choice rest ih =>
    intro s s' c X hp hf h
    simp only [sampleSeq] at h
    cases hstep : sampleWithoutReplacement choice s with
    | error e => rw [hstep] at h; exact absurd h (by simp [Except.bind])
    | ok s₁ =>
      rw [hstep] at h
      have hs₁ : s₁.panelColumn = some c ∧ s₁.fullIndividualMap = some X := by
        unfold sampleWithoutReplacement at hstep
        rw [show s.isPanel = true by simp [DBState.isPanel, hp]] at hstep
        simp only [if_true] at hstep
        split at hstep
        next heq => rw [hf] at heq; exact absurd heq (by simp)
        next fm heq =>
          split at hstep
          next heq2 => exact absurd hstep (by simp)
          next cur heq2 =>
            split at hstep
            next hcol =>
              obtain rfl := (Except.ok.inj hstep).symm
              exact ⟨hp, hf⟩
            next hcol => exact absurd hstep (by simp)
      exact ih s₁ s' c X hs₁.1 hs₁.2 h

/-- Claim C5: after one or more successful `sampleWithoutReplacement`
calls, `useFullSample` succeeds and restores the working copy (the data
frame, or the individual map on panel data) exactly to the copy held
before the first sampling call; and `useFullSample` fails with the
no-full-sample error precisely when no full copy was ever saved, with the
panel and non-panel full copies tracked independently. -/
theorem useFullSample_restores :
    (∀ (choice : List (List Int) → List (List Int)) choices (s s' : DBState),
       s.panelColumn = none → s.dataAliased = true →
       sampleSeq (choice :: choices) s = .ok s' →
       ∃ s'', useFullSample s' = .ok s'' ∧ s''.data = s.data) ∧
    (∀ (choice : List (List Int) → List (List Int)) choices (s s' : DBState) (c : String),
       s.panelColumn = some c → s.mapAliased = true →
       sampleSeq (choice :: choices) s = .ok s' →
       ∃ s'', useFullSample s' = .ok s'' ∧ s''.individualMap = s.individualMap) ∧
    (∀ s : DBState, s.isPanel = true →
       ((useFullSample s).isOk = false ↔ s.fullIndividualMap = none) ∧
       (s.fullIndividualMap = none →
         useFullSample s = .error "Full panel data set has not been saved.")) ∧
    (∀ s : DBState, s.isPanel = false →
       ((useFullSample s).isOk = false ↔ s.fullData = none) ∧
       (s.fullData = none → useFullSample s = .error "Full data set has not been saved.")) := by
  refine ⟨?_, ?_, ?_, ?_⟩
  · intro choice choices s s' hp ha h
    simp only [sampleSeq] at h
    cases hstep : sampleWithoutReplacement choice s with
    | error e => rw [hstep] at h; exact absurd h (by simp [Except.bind])
    | ok s₁ =>
      rw [hstep] at h
      obtain ⟨hp₁, hf₁, _, _⟩ := sample_first_nonpanel hp ha hstep
      obtain ⟨hp', hf'⟩ := sampleSeq_preserves_nonpanel choices s₁ s' s.data hp₁ hf₁ h
      refine ⟨{ s' with dataAliased := true }, ?_, ?_⟩
      · unfold useFullSample
        rw [show s'.isPanel = false by simp [DBState.isPanel, hp']]
        simp only [Bool.false_eq_true, if_false]
        rw [hf']
      · simp [DBState.data, hf']
  · intro choice choices s s' c hp ha h
    simp only [sampleSeq] at h
    cases hstep : sampleWithoutReplacement choice s with
    | error e => rw [hstep] at h; exact absurd h (by simp [Except.bind])
    | ok s₁ =>
      rw [hstep] at h
      obtain ⟨hp₁, hf₁, hsome⟩ := sample_first_panel hp ha hstep
      obtain ⟨X, hX⟩ := Option.isSome_iff_exists.mp hsome
      rw [hX] at hf₁
      obtain ⟨hp', hf'⟩ := sampleSeq_preserves_panel choices s₁ s' c X hp₁ hf₁ h
      refine ⟨{ s' with mapAliased := true }, ?_, ?_⟩
      · unfold useFullSample
        rw [show s'.isPanel = true by simp [DBState.isPanel, hp']]
        simp only [if_true]
        rw [hf']
      · simp [DBState.individualMap, hf', ha, hX]
  · intro s hpanel
    unfold useFullSample
    rw [hpanel]
    simp only [if_true]
    cases hf : s.fullIndividualMap with
    | none => simp [Except.isOk, Except.toBool]
    | some fm => simp [Except.isOk, Except.toBool]
  · intro s hpanel
    unfold useFullSample
    rw [hpanel]
    simp only [Bool.false_eq_true, if_false]
    cases hf : s.fullData with
    | none => simp [Except.isOk, Except.toBool]
    | some fd => simp [Except.isOk, Except.toBool]

/-- Witness for C5 on the concrete fixture: one sampling call keeping only
the first row, then `useFullSample`, restores the original working frame. -/
theorem useFullSample_restores_witness :
    (mkDatabase [] tableA).panelColumn = none ∧
    (mkDatabase [] tableA).dataAliased = true ∧
    sampleSeq [fun rows => rows.take 1] (mkDatabase [] tableA) =
      .ok { fullData := some tableA, dataOwn := ⟨["a"], [[0]]⟩, dataAliased := false
            panelColumn := none, fullIndividualMap := none, mapOwn := none
            mapAliased := false, nativeRNG := [], userRNG := [] } ∧
    (∃ s'', useFullSample
        { fullData := some tableA, dataOwn := ⟨["a"], [[0]]⟩, dataAliased := false
          panelColumn := none, fullIndividualMap := none, mapOwn := none
          mapAliased := false, nativeRNG := [], userRNG := [] } = .ok s'' ∧
       s''.data = (mkDatabase [] tableA).data) :=
  ⟨rfl, rfl, by rfl,
   useFullSample_restores.1 (fun rows => rows.take 1) [] (mkDatabase [] tableA)
     { fullData := some tableA, dataOwn := ⟨["a"], [[0]]⟩, dataAliased := false
       panelColumn := none, fullIndividualMap := none, mapOwn := none
       mapAliased := false, nativeRNG := [], userRNG := [] } rfl rfl (by rfl)⟩

/-- Computation of `sampleWithoutReplacement` on non-panel data with a
saved full frame. -/
theorem sampleWithoutReplacement_nonpanel_eq
    (choice : List (List Int) → List (List Int)) (s : DBState) (fd : Table)
    (hp : s.isPanel = false) (hf : s.fullData = some fd) :
    sampleWithoutReplacement choice s =
      if colNamesEq fd s.data then
        .ok { s with dataOwn := sampleTable choice fd, dataAliased := false }
      else .error (structureDriftMessage fd s.data) := by
  unfold sampleWithoutReplacement
  rw [hp, hf]
  exact rfl

/-- Computation of `sampleWithoutReplacement` on panel data with a saved
full individual map and a working individual map. -/
theorem sampleWithoutReplacement_panel_eq
    (choice : List (List Int) → List (List Int)) (s : DBState) (fm cur : Table)
    (hp : s.isPanel = true) (hf : s.fullIndividualMap = some fm)
    (hc : s.individualMap = some cur) :
    sampleWithoutReplacement choice s =
      if colNamesEq fm cur then
        .ok { s with mapOwn := some (sampleTable choice fm), mapAliased := false }
      else .error (structureDriftMessage fm cur) := by
  unfold sampleWithoutReplacement
  rw [hp, hf, hc]
  exact rfl

/-- Destructing a successful `addColumn` call: the column name was fresh
and the working frame was extended in place. -/
theorem addColumn_ok {s s₂ : DBState} {g : List Int → Int} {name : String}
    (h : s.addColumn g name = .ok s₂) :
    name ∉ s.data.cols ∧
    s₂ = s.setDataInPlace ⟨s.data.cols ++ [name], s.data.rows.map (fun r => r ++ [g r])⟩ := by
  unfold DBState.addColumn addColumnTable at h
  split at h
  next hmem => exact absurd h (by simp [Except.map])
  next hmem =>
    simp only [Except.map] at h
    exact ⟨hmem, (Except.ok.inj h).symm⟩

/-- Claim C6: `sampleWithoutReplacement` fails with the structure-drift
error exactly when the column-name sets of the saved full copy and the
current working copy differ (in either mode), the message enumerating the
columns present on only one side; in particular, appending a fresh column
to the working frame after a first sampling call makes the second call
fail, naming exactly the appended column as added. -/
theorem sampleWithoutReplacement_structure_drift :
    (∀ (choice : List (List Int) → List (List Int)) (s : DBState) (fd : Table),
       s.panelColumn = none → s.fullData = some fd →
       (colNamesEq fd s.data = false →
          sampleWithoutReplacement choice s = .error (structureDriftMessage fd s.data)) ∧
       (colNamesEq fd s.data = true → (sampleWithoutReplacement choice s).isOk = true)) ∧
    (∀ (choice : List (List Int) → List (List Int)) (s : DBState) (fm cur : Table),
       s.isPanel = true → s.fullIndividualMap = some fm → s.individualMap = some cur →
       (colNamesEq fm cur = false →
          sampleWithoutReplacement choice s = .error (structureDriftMessage fm cur)) ∧
       (colNamesEq fm cur = true → (sampleWithoutReplacement choice s).isOk = true)) ∧
    (∀ (choice₁ choice₂ : List (List Int) → List (List Int)) (g : List Int → Int)
       (name : String) (s s₁ s₂ : DBState),
       s.panelColumn = none → s.dataAliased = true →
       sampleWithoutReplacement choice₁ s = .ok s₁ →
       s₁.addColumn g name = .ok s₂ →
       sampleWithoutReplacement choice₂ s₂ = .error (structureDriftMessage s.data s₂.data) ∧
       colsOnlyIn s₂.data s.data = [name] ∧
       colsOnlyIn s.data s₂.data = []) := by
  refine ⟨?_, ?_, ?_⟩
  · intro choice s fd hp hf
    rw [sampleWithoutReplacement_nonpanel_eq choice s fd (by simp [DBState.isPanel, hp]) hf]
    constructor
    · intro hcol
      rw [if_neg (by simp [hcol])]
    · intro hcol
      rw [if_pos (by simp [hcol])]
      rfl
  · intro choice s fm cur hp hf hc
    rw [sampleWithoutReplacement_panel_eq choice s fm cur hp hf hc]
    constructor
    · intro hcol
      rw [if_neg (by simp [hcol])]
    · intro hcol
      rw [if_pos (by simp [hcol])]
      rfl
  · intro choice₁ choice₂ g name s s₁ s₂ hp ha h₁ h₂
    obtain ⟨hp₁, hf₁, hal₁, hd₁⟩ := sample_first_nonpanel hp ha h₁
    obtain ⟨hfresh, rfl⟩ := addColumn_ok h₂
    have hcols₁ : s₁.data.cols = s.data.cols := by rw [hd₁]; rfl
    rw [hcols₁] at hfresh
    have hset : s₁.setDataInPlace ⟨s₁.data.cols ++ [name], s₁.data.rows.map (fun r => r ++ [g r])⟩
        = { s₁ with dataOwn := ⟨s₁.data.cols ++ [name], s₁.data.rows.map (fun r => r ++ [g r])⟩ } := by
      unfold DBState.setDataInPlace
      rw [hal₁]
      rfl
    rw [hset]
    have hdata₂ :
        ({ s₁ with dataOwn := ⟨s₁.data.cols ++ [name], s₁.data.rows.map (fun r => r ++ [g r])⟩
           } : DBState).data
        = ⟨s₁.data.cols ++ [name], s₁.data.rows.map (fun r => r ++ [g r])⟩ := by
      simp [DBState.data, hal₁]
    have hfull₂ :
        ({ s₁ with dataOwn := ⟨s₁.data.cols ++ [name], s₁.data.rows.map (fun r => r ++ [g r])⟩
           } : DBState).fullData = some s.data := hf₁
    have hpan₂ :
        ({ s₁ with dataOwn := ⟨s₁.data.cols ++ [name], s₁.data.rows.map (fun r => r ++ [g r])⟩
           } : DBState).isPanel = false := by
      simp [DBState.isPanel, hp₁]
    have hbcols : (⟨s₁.data.cols ++ [name], s₁.data.rows.map (fun r => r ++ [g r])⟩ : Table).cols
        = s.data.cols ++ [name] := by
      simp [hcols₁]
    have hdrift : colNamesEq s.data
        (⟨s₁.data.cols ++ [name], s₁.data.rows.map (fun r => r ++ [g r])⟩ : Table) = false :=
      colNamesEq_append_fresh hbcols hfresh
    refine ⟨?_, ?_, ?_⟩
    · rw [sampleWithoutReplacement_nonpanel_eq choice₂ _ s.data hpan₂ hfull₂]
      rw [hdata₂, if_neg (by simp [hdrift])]
    · rw [hdata₂]
      exact colsOnlyIn_append_fresh hbcols hfresh
    · rw [hdata₂]
      exact colsOnlyIn_sub_append hbcols

/-- Witness for C6 on the concrete fixture: sample (keeping all rows), add
the fresh column "c", sample again; the second call fails with the drift
message naming "c" as added. -/
theorem sampleWithoutReplacement_structure_drift_witness :
    (mkDatabase [] tableA).panelColumn = none ∧
    (mkDatabase [] tableA).dataAliased = true ∧
    sampleWithoutReplacement (fun rows => rows) (mkDatabase [] tableA) =
      .ok { fullData := some tableA, dataOwn := tableA, dataAliased := false
            panelColumn := none, fullIndividualMap := none, mapOwn := none
            mapAliased := false, nativeRNG := [], userRNG := [] } ∧
    DBState.addColumn
      { fullData := some tableA, dataOwn := tableA, dataAliased := false
        panelColumn := none, fullIndividualMap := none, mapOwn := none
        mapAliased := false, nativeRNG := [], userRNG := [] } (fun _ => 9) "c" =
      .ok { fullData := some tableA, dataOwn := ⟨["a", "c"], [[0, 9], [1, 9]]⟩
            dataAliased := false, panelColumn := none, fullIndividualMap := none
            mapOwn := none, mapAliased := false, nativeRNG := [], userRNG := [] } ∧
    (sampleWithoutReplacement (fun rows => rows)
        { fullData := some tableA, dataOwn := ⟨["a", "c"], [[0, 9], [1, 9]]⟩
          dataAliased := false, panelColumn := none, fullIndividualMap := none
          mapOwn := none, mapAliased := false, nativeRNG := [], userRNG := [] } =
       .error (structureDriftMessage (mkDatabase [] tableA).data
         ({ fullData := some tableA, dataOwn := ⟨["a", "c"], [[0, 9], [1, 9]]⟩
            dataAliased := false, panelColumn := none, fullIndividualMap := none
            mapOwn := none, mapAliased := false, nativeRNG := []
            userRNG := [] } : DBState).data) ∧
     colsOnlyIn ({ fullData := some tableA, dataOwn := ⟨["a", "c"], [[0, 9], [1, 9]]⟩
                   dataAliased := false, panelColumn := none, fullIndividualMap := none
                   mapOwn := none, mapAliased := false, nativeRNG := []
                   userRNG := [] } : DBState).data (mkDatabase [] tableA).data = ["c"] ∧
     colsOnlyIn (mkDatabase [] tableA).data
       ({ fullData := some tableA, dataOwn := ⟨["a", "c"], [[0, 9], [1, 9]]⟩
          dataAliased := false, panelColumn := none, fullIndividualMap := none
          mapOwn := none, mapAliased := false, nativeRNG := []
          userRNG := [] } : DBState).data = []) :=
  ⟨rfl, rfl, by rfl, by rfl,
   sampleWithoutReplacement_structure_drift.2.2 (fun rows => rows) (fun rows => rows)
     (fun _ => 9) "c" (mkDatabase [] tableA)
     { fullData := some tableA, dataOwn := tableA, dataAliased := false
       panelColumn := none, fullIndividualMap := none, mapOwn := none
       mapAliased := false, nativeRNG := [], userRNG := [] }
     { fullData := some tableA, dataOwn := ⟨["a", "c"], [[0, 9], [1, 9]]⟩
       dataAliased := false, panelColumn := none, fullIndividualMap := none
       mapOwn := none, mapAliased := false, nativeRNG := [], userRNG := [] }
     rfl rfl (by rfl) (by rfl)⟩

/-- On a sorted list, the number of contiguous runs of equal values equals
the number of distinct values. -/
theorem countNumberOfGroups_sorted :
    ∀ (l : List Int), l.Sorted (· ≤ ·) → countNumberOfGroups l = l.toFinset.card := by
  intro l
  induction l with
  | nil => intro _; simp [countNumberOfGroups]
  | cons a t ih =>
    intro h
    cases t with
    | nil => simp [countNumberOfGroups]
    | cons b t' =>
      have hs : (b :: t').Sorted (· ≤ ·) := h.of_cons
      have ih' := ih hs
      by_cases hab : a = b
      · subst hab
        rw [show countNumberOfGroups (a :: a :: t') = countNumberOfGroups (a :: t') from by
          simp [countNumberOfGroups]]
        rw [ih']
        simp [List.toFinset_cons, Finset.insert_idem]
      · have hcnt : countNumberOfGroups (a :: b :: t') = 1 + countNumberOfGroups (b :: t') := by
          simp [countNumberOfGroups, hab]
        have hmem : a ∉ b :: t' := by
          have h1 : ∀ x ∈ b :: t', a ≤ x := (List.sorted_cons.mp h).1
          have h2 : ∀ x ∈ t', b ≤ x := (List.sorted_cons.mp hs).1
          intro hmem
          rcases List.mem_cons.mp hmem with rfl | hin
          · exact hab rfl
          · exact hab (le_antisymm (h1 b (List.mem_cons_self b t')) (h2 a hin))
        have hcard : (a :: b :: t').toFinset.card = (b :: t').toFinset.card + 1 := by
          rw [List.toFinset_cons, Finset.card_insert_of_not_mem (by simpa using hmem)]
        rw [hcnt, ih', hcard]
        omega

/-- The run count of the sorted grouping column is the number of distinct
values of the column. -/
theorem countNumberOfGroups_sortedCol (col : List Int) :
    countNumberOfGroups (sortedCol col) = numDistinct col := by
  have hsorted : (sortedCol col).Sorted (· ≤ ·) := List.sorted_insertionSort _ _
  have hperm : (sortedCol col).Perm col := List.perm_insertionSort _ _
  rw [countNumberOfGroups_sorted _ hsorted]
  unfold numDistinct
  rw [List.toFinset_eq_of_perm _ _ hperm]

/-- Claim C4: `panel` fails with the structure error exactly when the
number of contiguous runs of equal values in the grouping column differs
from the number of distinct values in that column, the message reporting
both counts and the column name; the 6-row column [1,1,2,2,2,1] fails,
while [1,1,1,2,2,2] succeeds producing the map ((1,(0,2)), (2,(3,5))). -/
theorem panel_contiguity_check :
    (∀ (name : String) (col : List Int),
       (panel name col).isOk = true ↔ countNumberOfGroups col = numDistinct col) ∧
    (∀ (name : String) (col : List Int),
       countNumberOfGroups col ≠ numDistinct col →
       panel name col =
         .error (panelErrorMessage name (numDistinct col) (countNumberOfGroups col))) ∧
    panel "id" [1, 1, 2, 2, 2, 1] = .error (panelErrorMessage "id" 2 3) ∧
    panel "id" [1, 1, 1, 2, 2, 2] = .ok [(1, 0, 2), (2, 3, 5)] := by
  have hpanel : ∀ (name : String) (col : List Int),
      panel name col =
        if countNumberOfGroups col ≠ numDistinct col then
          .error (panelErrorMessage name (numDistinct col) (countNumberOfGroups col))
        else .ok (buildPanelMap col) := by
    intro name col
    unfold panel
    rw [countNumberOfGroups_sortedCol]
  refine ⟨?_, ?_, by rfl, by rfl⟩
  · intro name col
    rw [hpanel]
    by_cases h : countNumberOfGroups col = numDistinct col
    · rw [if_neg (fun hne => hne h)]
      simp [Except.isOk, Except.toBool, h]
    · rw [if_pos h]
      simp [Except.isOk, Except.toBool, h]
  · intro name col h
    rw [hpanel, if_pos h]

/-- Witness for C4: the contiguity-violating column [1,1,2,2,2,1] has 3
runs but 2 distinct values, and `panel` fails with the message reporting
both counts. -/
theorem panel_contiguity_check_witness :
    countNumberOfGroups [1, 1, 2, 2, 2, 1] ≠ numDistinct [1, 1, 2, 2, 2, 1] ∧
    panel "id" [1, 1, 2, 2, 2, 1] =
      .error (panelErrorMessage "id" (numDistinct [1, 1, 2, 2, 2, 1])
        (countNumberOfGroups [1, 1, 2, 2, 2, 1])) :=
  ⟨by decide, panel_contiguity_check.2.1 "id" [1, 1, 2, 2, 2, 1] (by decide)⟩

/-- Unfolding `indicesOf` over a cons cell: index 0 matches when the head
matches, and the indices into the tail are shifted by one. -/
theorem indicesOf_cons (a : Int) (l : List Int) (v : Int) :
    indicesOf (a :: l) v = (if a = v then [0] else []) ++ (indicesOf l v).map (· + 1) := by
  unfold indicesOf
  rw [List.length_cons, List.range_succ_eq_map, List.filter_cons, List.filter_map]
  have hfeq : List.filter ((fun j => (a :: l).getD j 0 == v) ∘ Nat.succ) (List.range l.length)
      = List.filter (fun j => l.getD j 0 == v) (List.range l.length) :=
    List.filter_congr (fun j _ => rfl)
  rw [hfeq]
  by_cases hav : a = v
  · rw [if_pos (show ((a :: l).getD 0 0 == v) = true by simp [hav]), if_pos hav]
    exact rfl
  · rw [if_neg (show ¬((a :: l).getD 0 0 == v) = true by simp [hav]), if_neg hav]
    exact rfl

/-- Membership in `indicesOf`: exactly the in-range positions holding the
value. -/
theorem mem_indicesOf {l : List Int} {v : Int} {j : Nat} :
    j ∈ indicesOf l v ↔ j < l.length ∧ l.getD j 0 = v := by
  unfold indicesOf
  simp [List.mem_filter, List.mem_range]

/-- On a sorted column the positions of a value form the contiguous range
starting at the number of strictly smaller entries, with length the
multiplicity of the value. -/
theorem indicesOf_sorted (v : Int) :
    ∀ (l : List Int), l.Sorted (· ≤ ·) →
      indicesOf l v = List.range' (l.countP (fun x => decide (x < v))) (l.count v) := by
  intro l
  induction l with
  | nil => intro _; rfl
  | cons a l ih =>
    intro h
    have hs := h.of_cons
    have ihs := ih hs
    rw [indicesOf_cons, ihs]
    rcases lt_trichotomy a v with hlt | heq | hgt
    · rw [if_neg (ne_of_lt hlt), List.countP_cons_of_pos _ _ (by simpa using hlt),
        List.count_cons_of_ne (Ne.symm (ne_of_lt hlt)), List.nil_append]
      rw [show ((· + 1) : Nat → Nat) = (1 + ·) from funext fun x => Nat.add_comm x 1]
      rw [List.map_add_range']
      rw [Nat.add_comm 1 _]
    · subst heq
      have hc0 : l.countP (fun x => decide (x < a)) = 0 := by
        rw [List.countP_eq_zero]
        intro x hx
        simp only [decide_eq_true_eq]
        exact not_lt.mpr ((List.sorted_cons.mp h).1 x hx)
      have hcP : (a :: l).countP (fun x => decide (x < a)) = 0 := by
        simp [List.countP_cons, hc0]
      rw [if_pos rfl, hc0, hcP, List.count_cons_self]
      rw [List.range'_succ]
      rw [show ((· + 1) : Nat → Nat) = (1 + ·) from funext fun x => Nat.add_comm x 1]
      rw [List.map_add_range']
      rfl
    · rw [if_neg (ne_of_gt hgt)]
      have hvnotmem : v ∉ l := fun hm =>
        absurd ((List.sorted_cons.mp h).1 v hm) (not_le.mpr hgt)
      have hcl : l.count v = 0 := List.count_eq_zero.mpr hvnotmem
      have hca : (a :: l).count v = 0 := by
        rw [List.count_cons_of_ne (Ne.symm (ne_of_gt hgt)), hcl]
      rw [hcl, hca]
      simp

/-- Folding `Nat.min` over a list of elements all at least the seed leaves
the seed. -/
theorem foldl_min_of_le :
    ∀ (t : List Nat) (a : Nat), (∀ x ∈ t, a ≤ x) → t.foldl Nat.min a = a := by
  intro t
  induction t with
  | nil => intro a _; rfl
  | cons b t ih =>
    intro a h
    simp only [List.foldl_cons]
    have hab : a ≤ b := h b (List.mem_cons_self b t)
    rw [show Nat.min a b = a by
      have hmm : min a b = a := min_eq_left hab
      exact hmm]
    exact ih a (fun x hx => h x (List.mem_cons_of_mem b hx))

/-- The minimum of a nonempty contiguous index range is its start. -/
theorem listMin_range' (c n : Nat) : listMin (List.range' c (n + 1)) = c := by
  rw [List.range'_succ]
  unfold listMin
  apply foldl_min_of_le
  intro x hx
  obtain ⟨i, hi, rfl⟩ := List.mem_range'.mp hx
  omega

/-- The maximum of a nonempty contiguous index range is its end. -/
theorem listMax_range' : ∀ (n c : Nat), listMax (List.range' c (n + 1)) = c + n := by
  intro n
  induction n with
  | zero => intro c; rfl
  | succ n ih =>
    intro c
    rw [List.range'_succ, List.range'_succ]
    unfold listMax
    simp only [List.foldl_cons]
    rw [show Nat.max c (c + 1) = c + 1 by
      have hmm : max c (c + 1) = c + 1 := max_eq_right (Nat.le_succ c)
      exact hmm]
    have hih : List.foldl Nat.max (c + 1) (List.range' (c + 1 + 1) n) = c + 1 + n := by
      have h0 := ih (c + 1)
      rw [List.range'_succ] at h0
      exact h0
    rw [hih]
    omega

/-- `uniqueInOrder` has the same members as the original column. -/
theorem mem_uniqueInOrder : ∀ (l : List Int) (x : Int), x ∈ uniqueInOrder l ↔ x ∈ l := by
  intro l
  induction l with
  | nil => intro x; simp [uniqueInOrder]
  | cons a t ih =>
    intro x
    simp only [uniqueInOrder, List.mem_cons, List.mem_filter, bne_iff_ne, ih]
    by_cases hxa : x = a <;> simp [hxa]

/-- `uniqueInOrder` never repeats a value. -/
theorem nodup_uniqueInOrder : ∀ (l : List Int), (uniqueInOrder l).Nodup := by
  intro l
  induction l with
  | nil => simp [uniqueInOrder]
  | cons a t ih =>
    simp only [uniqueInOrder]
    refine List.nodup_cons.mpr ⟨?_, List.Nodup.filter _ ih⟩
    intro hmem
    rcases List.mem_filter.mp hmem with ⟨_, hne⟩
    simp at hne

/-- The (identifier, first index, last index) entries built by
`buildPanelMap`: the range is well-formed, every position inside it holds
the identifier, and every position holding the identifier is inside it. -/
theorem buildPanelMap_entry {col : List Int} {e : Int × Nat × Nat}
    (he : e ∈ buildPanelMap col) :
    e.1 ∈ sortedCol col ∧
    e.2.1 ≤ e.2.2 ∧ e.2.2 < (sortedCol col).length ∧
    (∀ j, e.2.1 ≤ j → j ≤ e.2.2 → (sortedCol col).getD j 0 = e.1) ∧
    (∀ j, j < (sortedCol col).length → (sortedCol col).getD j 0 = e.1 →
       e.2.1 ≤ j ∧ j ≤ e.2.2) := by
  obtain ⟨v, hv, rfl⟩ := List.mem_map.mp he
  have hsorted : (sortedCol col).Sorted (· ≤ ·) := List.sorted_insertionSort _ _
  have hvs : v ∈ sortedCol col := (mem_uniqueInOrder (sortedCol col) v).mp hv
  have hcount : 0 < (sortedCol col).count v := List.count_pos_iff.mpr hvs
  obtain ⟨n, hn⟩ : ∃ n, (sortedCol col).count v = n + 1 :=
    ⟨(sortedCol col).count v - 1, by omega⟩
  have hidx : indicesOf (sortedCol col) v =
      List.range' ((sortedCol col).countP (fun x => decide (x < v))) (n + 1) := by
    rw [indicesOf_sorted v (sortedCol col) hsorted, hn]
  have hmin : listMin (indicesOf (sortedCol col) v) =
      (sortedCol col).countP (fun x => decide (x < v)) := by
    rw [hidx]; exact listMin_range' _ n
  have hmax : listMax (indicesOf (sortedCol col) v) =
      (sortedCol col).countP (fun x => decide (x < v)) + n := by
    rw [hidx]; exact listMax_range' n _
  have hrange : ∀ j, j ∈ List.range' ((sortedCol col).countP (fun x => decide (x < v))) (n + 1)
      ↔ ((sortedCol col).countP (fun x => decide (x < v)) ≤ j ∧
         j < (sortedCol col).countP (fun x => decide (x < v)) + (n + 1)) := by
    intro j
    constructor
    · intro hj
      obtain ⟨i, hi, rfl⟩ := List.mem_range'.mp hj
      omega
    · intro hj
      exact List.mem_range'.mpr ⟨j - (sortedCol col).countP (fun x => decide (x < v)),
        by omega, by omega⟩
  dsimp only
  refine ⟨hvs, ?_, ?_, ?_, ?_⟩
  · rw [hmin, hmax]
    omega
  · have hmem : (sortedCol col).countP (fun x => decide (x < v)) + n
        ∈ indicesOf (sortedCol col) v := by
      rw [hidx]
      exact (hrange _).mpr ⟨by omega, by omega⟩
    have hbound := (mem_indicesOf.mp hmem).1
    rw [hmax]
    exact hbound
  · intro j h1 h2
    rw [hmin] at h1
    rw [hmax] at h2
    have hj : j ∈ indicesOf (sortedCol col) v := by
      rw [hidx]
      exact (hrange j).mpr ⟨h1, by omega⟩
    exact (mem_indicesOf.mp hj).2
  · intro j hjlen hjval
    have hj : j ∈ indicesOf (sortedCol col) v := mem_indicesOf.mpr ⟨hjlen, hjval⟩
    rw [hidx] at hj
    have hb := (hrange j).mp hj
    rw [hmin, hmax]
    omega

/-- Claim C3: whenever `panel` succeeds, the individual map built by
`buildPanelMap` lists the identifiers in first-appearance order of the
sorted data without repetition, each entry's (first, last) range is
well-formed and holds exactly that identifier, the ranges jointly cover
all row indices 0..N-1 of the sorted, densely renumbered dataset, and
ranges of distinct identifiers never overlap. -/
theorem buildPanelMap_partition (name : String) (col : List Int)
    (_h : (panel name col).isOk = true) :
    ((buildPanelMap col).map Prod.fst = uniqueInOrder (sortedCol col)) ∧
    ((buildPanelMap col).map Prod.fst).Nodup ∧
    (sortedCol col).length = col.length ∧
    (∀ e ∈ buildPanelMap col,
       e.2.1 ≤ e.2.2 ∧ e.2.2 < col.length ∧
       ∀ j, e.2.1 ≤ j → j ≤ e.2.2 → (sortedCol col).getD j 0 = e.1) ∧
    (∀ j, j < col.length → ∃ e ∈ buildPanelMap col, e.2.1 ≤ j ∧ j ≤ e.2.2) ∧
    (∀ e₁ ∈ buildPanelMap col, ∀ e₂ ∈ buildPanelMap col, e₁.1 ≠ e₂.1 →
       ∀ j, ¬(e₁.2.1 ≤ j ∧ j ≤ e₁.2.2 ∧ e₂.2.1 ≤ j ∧ j ≤ e₂.2.2)) := by
  have hlen : (sortedCol col).length = col.length :=
    (List.perm_insertionSort (fun a b => a ≤ b) col).length_eq
  have hfst : (buildPanelMap col).map Prod.fst = uniqueInOrder (sortedCol col) := by
    unfold buildPanelMap
    rw [List.map_map]
    exact List.map_id _
  refine ⟨hfst, by rw [hfst]; exact nodup_uniqueInOrder _, hlen, ?_, ?_, ?_⟩
  · intro e he
    obtain ⟨_, hle, hlt, hcontig, _⟩ := buildPanelMap_entry he
    exact ⟨hle, by rwa [hlen] at hlt, hcontig⟩
  · intro j hj
    rw [← hlen] at hj
    have hval : (sortedCol col).getD j 0 ∈ sortedCol col := by
      have hgd : (sortedCol col).getD j 0 = (sortedCol col).get ⟨j, hj⟩ := by
        rw [List.getD_eq_getElem?_getD, List.getElem?_eq_getElem hj]
        rfl
      rw [hgd]
      exact List.get_mem _ _ _
    have hvu : (sortedCol col).getD j 0 ∈ uniqueInOrder (sortedCol col) :=
      (mem_uniqueInOrder _ _).mpr hval
    have hmem : ((sortedCol col).getD j 0,
        listMin (indicesOf (sortedCol col) ((sortedCol col).getD j 0)),
        listMax (indicesOf (sortedCol col) ((sortedCol col).getD j 0))) ∈ buildPanelMap col :=
      List.mem_map.mpr ⟨(sortedCol col).getD j 0, hvu, rfl⟩
    obtain ⟨_, _, _, _, hconv⟩ := buildPanelMap_entry hmem
    exact ⟨_, hmem, hconv j hj rfl⟩
  · intro e₁ he₁ e₂ he₂ hne j hj
    obtain ⟨h11, h12, h21, h22⟩ := hj
    obtain ⟨_, _, _, hc₁, _⟩ := buildPanelMap_entry he₁
    obtain ⟨_, _, _, hc₂, _⟩ := buildPanelMap_entry he₂
    exact hne ((hc₁ j h11 h12).symm.trans (hc₂ j h21 h22))

/-- Witness for C3 on the concrete panel column [1,1,1,2,2,2], on which
`panel` succeeds. -/
theorem buildPanelMap_partition_witness :
    (panel "id" [1, 1, 1, 2, 2, 2]).isOk = true ∧
    (((buildPanelMap [1, 1, 1, 2, 2, 2]).map Prod.fst =
        uniqueInOrder (sortedCol [1, 1, 1, 2, 2, 2])) ∧
     ((buildPanelMap [1, 1, 1, 2, 2, 2]).map Prod.fst).Nodup ∧
     (sortedCol [1, 1, 1, 2, 2, 2]).length = ([1, 1, 1, 2, 2, 2] : List Int).length ∧
     (∀ e ∈ buildPanelMap [1, 1, 1, 2, 2, 2],
        e.2.1 ≤ e.2.2 ∧ e.2.2 < ([1, 1, 1, 2, 2, 2] : List Int).length ∧
        ∀ j, e.2.1 ≤ j → j ≤ e.2.2 → (sortedCol [1, 1, 1, 2, 2, 2]).getD j 0 = e.1) ∧
     (∀ j, j < ([1, 1, 1, 2, 2, 2] : List Int).length →
        ∃ e ∈ buildPanelMap [1, 1, 1, 2, 2, 2], e.2.1 ≤ j ∧ j ≤ e.2.2) ∧
     (∀ e₁ ∈ buildPanelMap [1, 1, 1, 2, 2, 2], ∀ e₂ ∈ buildPanelMap [1, 1, 1, 2, 2, 2],
        e₁.1 ≠ e₂.1 →
        ∀ j, ¬(e₁.2.1 ≤ j ∧ j ≤ e₁.2.2 ∧ e₂.2.1 ≤ j ∧ j ≤ e₂.2.2))) :=
  ⟨by rfl, buildPanelMap_partition "id" [1, 1, 1, 2, 2, 2] (by rfl)⟩

/-- A successful `generateOne` call returns an array of the exact shape
`(sampleSize, numberOfDraws)`. -/
theorem generateOne_ok_shape {s : DBState} {types : List (String × String)}
    {numberOfDraws : Nat} {name : String} {m : List (List Int)}
    (h : generateOne s types numberOfDraws name = .ok m) :
    m.length = getSampleSize s ∧ ∀ r ∈ m, r.length = numberOfDraws := by
  unfold generateOne at h
  split at h
  next => exact absurd h (by simp)
  next ty hl =>
    split at h
    next => exact absurd h (by simp)
    next g hr =>
      split at h
      next hsh =>
        obtain rfl := Except.ok.inj h
        unfold shapeOk at hsh
        simp only [Bool.and_eq_true, beq_iff_eq, List.all_eq_true] at hsh
        exact ⟨hsh.1, fun r hrm => by simpa using hsh.2 r hrm⟩
      next => exact absurd h (by simp)

/-- The `generateDraws` loop collects, in order, the shape-checked array of
each listed variable, when every per-variable call succeeds. -/
theorem collectDraws_ok {s : DBState} {types : List (String × String)} {numberOfDraws : Nat} :
    ∀ (names : List String),
      (∀ n ∈ names, (generateOne s types numberOfDraws n).isOk = true) →
      collectDraws s types numberOfDraws names =
        .ok (names.map (generatedMatrix s types numberOfDraws)) := by
  intro names
  induction names with
  | nil => intro _; rfl
  | cons n rest ih =>
    intro h
    have hn := Except_eq_ok_of_isOk (generateOne s types numberOfDraws n) []
      (h n (List.mem_cons_self n rest))
    have hrest := ih (fun x hx => h x (List.mem_cons_of_mem _ hx))
    unfold collectDraws
    rw [hn, hrest]
    rfl

/-- `getD` of a map over an index range evaluates the function. -/
theorem getD_map_range {α : Type} (f : Nat → α) {S i : Nat} (d : α) (hi : i < S) :
    ((List.range S).map f).getD i d = f i := by
  rw [List.getD_eq_getElem?_getD, List.getElem?_map, List.getElem?_range hi]
  rfl

/-- Claim C7: when every requested variable resolves and its generator
returns an array of shape (sampleSize, numberOfDraws), `generateDraws`
returns a tensor of shape (sampleSize, numberOfDraws, number of
variables), whose entry [i][d][v] is entry [i][d] of the array generated
for the v-th listed variable; the sample size is the number of individuals
in panel mode and the number of rows otherwise. -/
theorem generateDraws_shape (s : DBState) (types : List (String × String))
    (names : List String) (numberOfDraws : Nat)
    (h : ∀ n ∈ names, (generateOne s types numberOfDraws n).isOk = true) :
    ∃ T, generateDraws s types names numberOfDraws = .ok T ∧
      T.length = getSampleSize s ∧
      (∀ plane ∈ T, plane.length = numberOfDraws ∧
         ∀ row ∈ plane, row.length = names.length) ∧
      (∀ i d v, i < getSampleSize s → d < numberOfDraws → v < names.length →
        ((T.getD i []).getD d []).getD v 0 =
          ((generatedMatrix s types numberOfDraws (names.getD v "")).getD i []).getD d 0) ∧
      getSampleSize s = (if s.isPanel then ((s.individualMap).getD ⟨[], []⟩).rows.length
        else s.data.rows.length) := by
  refine ⟨moveaxis (names.map (generatedMatrix s types numberOfDraws)) (getSampleSize s)
      numberOfDraws, ?_, ?_, ?_, ?_, rfl⟩
  · unfold generateDraws
    rw [collectDraws_ok names h]
    rfl
  · simp [moveaxis]
  · intro plane hplane
    unfold moveaxis at hplane
    obtain ⟨i, _, rfl⟩ := List.mem_map.mp hplane
    refine ⟨by simp, ?_⟩
    intro row hrow
    obtain ⟨d, _, rfl⟩ := List.mem_map.mp hrow
    simp
  · intro i d v hi hd hv
    unfold moveaxis
    rw [getD_map_range _ _ hi, getD_map_range _ _ hd]
    rw [List.getD_eq_getElem?_getD, List.getElem?_map, List.getElem?_map,
      List.getElem?_eq_getElem hv]
    rw [show names.getD v "" = names[v] from by
      rw [List.getD_eq_getElem?_getD, List.getElem?_eq_getElem hv]
      rfl]
    rfl

/-- Witness for C7: a two-row non-panel database with one constant-shape
generator and a single requested variable. -/
theorem generateDraws_shape_witness :
    (∀ n ∈ (["x"] : List String),
       (generateOne (mkDatabase [("CG", constGen, "constant")] ⟨["a"], [[1], [2]]⟩)
         [("x", "CG")] 3 n).isOk = true) ∧
    (∃ T, generateDraws (mkDatabase [("CG", constGen, "constant")] ⟨["a"], [[1], [2]]⟩)
        [("x", "CG")] ["x"] 3 = .ok T ∧
      T.length = getSampleSize (mkDatabase [("CG", constGen, "constant")] ⟨["a"], [[1], [2]]⟩) ∧
      (∀ plane ∈ T, plane.length = 3 ∧
         ∀ row ∈ plane, row.length = (["x"] : List String).length) ∧
      (∀ i d v,
         i < getSampleSize (mkDatabase [("CG", constGen, "constant")] ⟨["a"], [[1], [2]]⟩) →
         d < 3 → v < (["x"] : List String).length →
        ((T.getD i []).getD d []).getD v 0 =
          ((generatedMatrix (mkDatabase [("CG", constGen, "constant")] ⟨["a"], [[1], [2]]⟩)
              [("x", "CG")] 3 ((["x"] : List String).getD v "")).getD i []).getD d 0) ∧
      getSampleSize (mkDatabase [("CG", constGen, "constant")] ⟨["a"], [[1], [2]]⟩) =
        (if (mkDatabase [("CG", constGen, "constant")] ⟨["a"], [[1], [2]]⟩).isPanel then
          (((mkDatabase [("CG", constGen, "constant")] ⟨["a"], [[1], [2]]⟩).individualMap).getD
            ⟨[], []⟩).rows.length
        else (mkDatabase [("CG", constGen, "constant")] ⟨["a"], [[1], [2]]⟩).data.rows.length)) :=
  ⟨by decide, generateDraws_shape _ _ _ 3 (by decide)⟩

/-- The sum of `q + (1 if i < r else 0)` over `i < k`. -/
theorem sum_map_ite_range : ∀ (k q r : Nat),
    ((List.range k).map (fun i => q + if i < r then 1 else 0)).sum = k * q + min r k := by
  intro k
  induction k with
  | zero => intro q r; simp
  | succ k ih =>
    intro q r
    rw [List.range_succ, List.map_append, List.sum_append, ih]
    simp only [List.map_cons, List.map_nil, List.sum_cons, List.sum_nil]
    rw [Nat.succ_mul]
    by_cases hkr : k < r
    · rw [if_pos hkr, min_eq_right (Nat.le_of_lt hkr), min_eq_right hkr]
      omega
    · rw [if_neg hkr, min_eq_left (Nat.le_of_not_lt hkr), min_eq_left (by omega)]
      omega

/-- The `np.array_split` part sizes add up to the original length. -/
theorem splitSizes_sum (n k : Nat) (hk : 0 < k) : (splitSizes n k).sum = n := by
  unfold splitSizes
  rw [sum_map_ite_range]
  rw [min_eq_left (Nat.le_of_lt (Nat.mod_lt _ hk))]
  exact Nat.div_add_mod n k

/-- `np.array_split` produces one part per requested size. -/
theorem takeParts_length {α : Type} :
    ∀ (sizes : List Nat) (l : List α), (takeParts sizes l).length = sizes.length := by
  intro sizes
  induction sizes with
  | nil => intro l; rfl
  | cons sz rest ih => intro l; simp [takeParts, ih]

/-- Concatenating the parts returns the taken prefix of the list. -/
theorem takeParts_flatten {α : Type} : ∀ (sizes : List Nat) (l : List α),
    (takeParts sizes l).flatten = l.take sizes.sum := by
  intro sizes
  induction sizes with
  | nil => intro l; simp [takeParts]
  | cons sz rest ih =>
    intro l
    simp only [takeParts, List.flatten_cons, List.sum_cons]
    rw [ih, List.take_add]

/-- Concatenating the `np.array_split` parts restores the list. -/
theorem array_split_flatten {α : Type} (l : List α) (k : Nat) (hk : 0 < k) :
    (array_split l k).flatten = l := by
  unfold array_split
  rw [takeParts_flatten, splitSizes_sum _ _ hk, List.take_length]

/-- `np.array_split` produces exactly `k` parts. -/
theorem array_split_length {α : Type} (l : List α) (k : Nat) :
    (array_split l k).length = k := by
  unfold array_split
  rw [takeParts_length]
  simp [splitSizes]

/-- Claim C8: for a shuffled row list that is a permutation of the row
indices 0..N-1 and any positive slice count k, `split` produces k
(estimation, validation) pairs; the validation sets are the k
`array_split` blocks: pairwise disjoint, of sizes summing to N, jointly
covering all rows; each estimation set is the concatenation of the other
blocks in original order and contains exactly the complement of its
validation set, so every row lies in exactly one validation set and in
exactly k-1 estimation sets. -/
theorem split_partition (N k : Nat) (hk : 0 < k) (perm : List Nat)
    (hperm : perm.Perm (List.range N)) :
    (split perm k).length = k ∧
    (array_split perm k).length = k ∧
    ((array_split perm k).map List.length).sum = N ∧
    (∀ i, i < k → (split perm k).getD i ([], []) =
       (((array_split perm k).take i ++ (array_split perm k).drop (i + 1)).flatten,
        (array_split perm k).getD i [])) ∧
    (∀ i j, i < k → j < k → i ≠ j →
       ∀ x, x ∈ (array_split perm k).getD i [] → x ∉ (array_split perm k).getD j []) ∧
    (∀ x, (∃ i, i < k ∧ x ∈ (array_split perm k).getD i []) ↔ x < N) ∧
    (∀ i, i < k → ∀ x,
       x ∈ ((split perm k).getD i ([], [])).1 ↔
         (x < N ∧ x ∉ (array_split perm k).getD i [])) ∧
    (∀ x, x < N →
       ((List.range k).countP (fun i => decide (x ∈ (array_split perm k).getD i []))) = 1 ∧
       ((List.range k).countP (fun i => decide (x ∈ ((split perm k).getD i ([], [])).1)))
         = k - 1) := by
  have hlen : (array_split perm k).length = k := array_split_length _ _
  have hflat : (array_split perm k).flatten = perm := array_split_flatten _ _ hk
  have hnd : (array_split perm k).flatten.Nodup := by
    rw [hflat]
    exact hperm.nodup_iff.mpr (List.nodup_range N)
  have hgetD : ∀ i (hi : i < k),
      (array_split perm k).getD i [] =
        (array_split perm k).get ⟨i, by rw [hlen]; exact hi⟩ := by
    intro i hi
    rw [List.getD_eq_getElem?_getD, List.getElem?_eq_getElem (by rw [hlen]; exact hi)]
    rfl
  have hpairs : ∀ i, i < k → (split perm k).getD i ([], []) =
      (((array_split perm k).take i ++ (array_split perm k).drop (i + 1)).flatten,
       (array_split perm k).getD i []) := by
    intro i hi
    simp only [split]
    exact getD_map_range _ _ hi
  have hmemN : ∀ x : Nat, (x < N ↔ x ∈ (array_split perm k).flatten) := by
    intro x
    rw [hflat, hperm.mem_iff, List.mem_range]
  have hdisj : ∀ i j, i < k → j < k → i ≠ j →
      ∀ x, x ∈ (array_split perm k).getD i [] → x ∉ (array_split perm k).getD j [] := by
    have hpairwise := (List.nodup_flatten.mp hnd).2
    intro i j hi hj hij x hxi hxj
    rw [hgetD i hi] at hxi
    rw [hgetD j hj] at hxj
    rcases Nat.lt_or_ge i j with hlt | hge
    · exact List.pairwise_iff_get.mp hpairwise _ _ hlt hxi hxj
    · have hlt : j < i := by omega
      exact List.pairwise_iff_get.mp hpairwise _ _ hlt hxj hxi
  have hcover : ∀ x, (∃ i, i < k ∧ x ∈ (array_split perm k).getD i []) ↔ x < N := by
    intro x
    constructor
    · rintro ⟨i, hi, hxi⟩
      rw [hgetD i hi] at hxi
      exact (hmemN x).mpr (List.mem_flatten.mpr ⟨_, List.get_mem _ _ _, hxi⟩)
    · intro hxN
      have hxflat := (hmemN x).mp hxN
      obtain ⟨part, hpartmem, hxpart⟩ := List.mem_flatten.mp hxflat
      obtain ⟨i, hilen, hieq⟩ := List.getElem_of_mem hpartmem
      refine ⟨i, by rw [← hlen]; exact hilen, ?_⟩
      rw [hgetD i (by rw [← hlen]; exact hilen)]
      have hgp : (array_split perm k).get ⟨i, hilen⟩ = part := by
        rw [List.get_eq_getElem]
        exact hieq
      rw [hgp]
      exact hxpart
  have hest : ∀ i, i < k → ∀ x,
      x ∈ ((split perm k).getD i ([], [])).1 ↔
        (x < N ∧ x ∉ (array_split perm k).getD i []) := by
    intro i hi x
    have hi' : i < (array_split perm k).length := by rw [hlen]; exact hi
    have hdecomp : (array_split perm k).flatten =
        ((array_split perm k).take i).flatten ++
        ((array_split perm k).get ⟨i, hi'⟩ ++
          ((array_split perm k).drop (i + 1)).flatten) := by
      conv_lhs => rw [← List.take_append_drop i (array_split perm k)]
      rw [List.flatten_append, List.drop_eq_getElem_cons hi', List.flatten_cons,
        List.get_eq_getElem]
    have hnd2 := hnd
    rw [hdecomp] at hnd2
    obtain ⟨hndA, hndrest, hdisA⟩ := List.nodup_append.mp hnd2
    obtain ⟨hndmid, hndB, hdismidB⟩ := List.nodup_append.mp hndrest
    rw [hpairs i hi]
    rw [hgetD i hi]
    show x ∈ ((array_split perm k).take i ++ (array_split perm k).drop (i + 1)).flatten ↔ _
    rw [List.flatten_append, List.mem_append]
    constructor
    · rintro (hxA | hxB)
      · refine ⟨(hmemN x).mpr (by rw [hdecomp]; exact List.mem_append.mpr (.inl hxA)), ?_⟩
        intro hxmid
        exact hdisA hxA (List.mem_append.mpr (.inl hxmid))
      · refine ⟨(hmemN x).mpr (by
          rw [hdecomp]
          exact List.mem_append.mpr (.inr (List.mem_append.mpr (.inr hxB)))), ?_⟩
        intro hxmid
        exact hdismidB hxmid hxB
    · rintro ⟨hxN, hxnotmid⟩
      have hxflat := (hmemN x).mp hxN
      rw [hdecomp] at hxflat
      rcases List.mem_append.mp hxflat with hxA | hxrest
      · exact .inl hxA
      · rcases List.mem_append.mp hxrest with hxmid | hxB
        · exact absurd hxmid hxnotmid
        · exact .inr hxB
  refine ⟨by simp [split], hlen, ?_, hpairs, hdisj, hcover, hest, ?_⟩
  · rw [← List.length_flatten, hflat, hperm.length_eq, List.length_range]
  · intro x hxN
    obtain ⟨i₀, hi₀, hxi₀⟩ := (hcover x).mpr hxN
    have huniq : ∀ j, j < k → x ∈ (array_split perm k).getD j [] → j = i₀ := by
      intro j hj hxj
      by_contra hne
      exact hdisj j i₀ hj hi₀ hne x hxj hxi₀
    constructor
    · have hcong : (List.range k).countP
          (fun i => decide (x ∈ (array_split perm k).getD i [])) =
          (List.range k).countP (fun j => j == i₀) := by
        apply List.countP_congr
        intro j hj
        simp only [List.mem_range] at hj
        simp only [decide_eq_true_eq, beq_iff_eq]
        constructor
        · exact huniq j hj
        · rintro rfl
          exact hxi₀
      rw [hcong, ← List.count_eq_countP, List.count_eq_one_of_mem (List.nodup_range k)
        (List.mem_range.mpr hi₀)]
    · have hcong : (List.range k).countP
          (fun i => decide (x ∈ ((split perm k).getD i ([], [])).1)) =
          (List.range k).countP
            (fun a => decide ¬(decide (x ∈ (array_split perm k).getD a []) = true)) := by
        apply List.countP_congr
        intro j hj
        simp only [List.mem_range] at hj
        simp only [decide_eq_true_eq]
        rw [hest j hj x]
        constructor
        · exact fun hx => hx.2
        · exact fun hx => ⟨hxN, hx⟩
      have hcnt1 : (List.range k).countP
          (fun i => decide (x ∈ (array_split perm k).getD i [])) = 1 := by
        have hcong2 : (List.range k).countP
            (fun i => decide (x ∈ (array_split perm k).getD i [])) =
            (List.range k).countP (fun j => j == i₀) := by
          apply List.countP_congr
          intro j hj
          simp only [List.mem_range] at hj
          simp only [decide_eq_true_eq, beq_iff_eq]
          constructor
          · exact huniq j hj
          · rintro rfl
            exact hxi₀
        rw [hcong2, ← List.count_eq_countP, List.count_eq_one_of_mem (List.nodup_range k)
          (List.mem_range.mpr hi₀)]
      have hsum := List.length_eq_countP_add_countP
        (fun i => decide (x ∈ (array_split perm k).getD i [])) (List.range k)
      rw [List.length_range, hcnt1] at hsum
      rw [hcong]
      omega

/-- Witness for C8: the 3-row permutation [2,0,1] split into 2 slices. -/
theorem split_partition_witness :
    0 < 2 ∧ ([2, 0, 1] : List Nat).Perm (List.range 3) ∧
    ((split [2, 0, 1] 2).length = 2 ∧
     (array_split ([2, 0, 1] : List Nat) 2).length = 2 ∧
     ((array_split ([2, 0, 1] : List Nat) 2).map List.length).sum = 3 ∧
     (∀ i, i < 2 → (split [2, 0, 1] 2).getD i ([], []) =
        (((array_split ([2, 0, 1] : List Nat) 2).take i ++
          (array_split ([2, 0, 1] : List Nat) 2).drop (i + 1)).flatten,
         (array_split ([2, 0, 1] : List Nat) 2).getD i [])) ∧
     (∀ i j, i < 2 → j < 2 → i ≠ j →
        ∀ x, x ∈ (array_split ([2, 0, 1] : List Nat) 2).getD i [] →
          x ∉ (array_split ([2, 0, 1] : List Nat) 2).getD j []) ∧
     (∀ x, (∃ i, i < 2 ∧ x ∈ (array_split ([2, 0, 1] : List Nat) 2).getD i []) ↔ x < 3) ∧
     (∀ i, i < 2 → ∀ x,
        x ∈ ((split [2, 0, 1] 2).getD i ([], [])).1 ↔
          (x < 3 ∧ x ∉ (array_split ([2, 0, 1] : List Nat) 2).getD i [])) ∧
     (∀ x, x < 3 →
        ((List.range 2).countP
          (fun i => decide (x ∈ (array_split ([2, 0, 1] : List Nat) 2).getD i []))) = 1 ∧
        ((List.range 2).countP
          (fun i => decide (x ∈ ((split [2, 0, 1] 2).getD i ([], [])).1))) = 2 - 1)) :=
  ⟨by decide, by decide, split_partition 3 2 (by decide) [2, 0, 1] (by decide)⟩
